import Mathlib

/-!
Verification of the TCPchat server's connection protocol engine
(`cmd/server/main.go`): the per-connection read loop, the command
dispatcher (`handleCommand`), the reply evaluator (the parsing switch in
`handleConn`), and the history replay (`sendHistory`).

Modelling conventions:
- Strings are Lean `String`s; the byte-level Go operations on ASCII
  prefixes coincide with the char-level ones used here.
- Wall-clock timestamps (`time.Now()`) are modelled as a monotone `Nat`
  counter threaded through the read loop; `time.Format` is modelled as
  decimal rendering of that counter.
- Go's 64-bit `int` arithmetic is modelled as `Int` reduced by `wrap64`.
- bcrypt hashing is modelled as an injective tagging function `mkHash`
  (salting is irrelevant to every property considered here);
  `bcrypt.CompareHashAndPassword` succeeds exactly on a matching tag.
- Fallible externals (GORM queries, bcrypt, `conn.Write`) are driven by
  an explicit per-line effect record `Fx`; a flag set means that call
  fails.  The SQLite UNIQUE index on `users.name` is part of the store
  model itself.
- A Go runtime panic (out-of-bounds index) is modelled as `Option.none`.
-/

namespace TCPchat

/-- The whitespace predicate of Go's `unicode.IsSpace`, which both
`strings.TrimSpace` and `strings.Fields` use: ASCII whitespace, the two
Latin-1 space characters, and the Unicode space separators. -/
def goIsSpace (c : Char) : Bool :=
  c = ' ' || c = '\t' || c = '\n' || c = '\r' || c = '\x0b' || c = '\x0c' ||
  c = '\x85' || c = '\xa0' || c = '\u1680' ||
  (0x2000 ≤ c.toNat && c.toNat ≤ 0x200a) ||
  c = '\u2028' || c = '\u2029' || c = '\u202f' || c = '\u205f' || c = '\u3000'

/-- Accumulator worker for `strings.Fields`: splits a character list into
maximal runs of non-space characters. -/
def fieldsAux : List Char → List Char → List (List Char)
  | [], acc => if acc.isEmpty then [] else [acc.reverse]
  | c :: cs, acc =>
    if goIsSpace c then
      if acc.isEmpty then fieldsAux cs [] else acc.reverse :: fieldsAux cs []
    else fieldsAux cs (c :: acc)

/-- Go `strings.Fields`: the whitespace-delimited tokens of a string. -/
def goFields (s : String) : List String :=
  (fieldsAux s.data []).map String.mk

/-- Go `strings.TrimSpace` on a character list: drop leading and trailing
whitespace. -/
def goTrimList (l : List Char) : List Char :=
  ((l.dropWhile goIsSpace).reverse.dropWhile goIsSpace).reverse

/-- Go `strings.TrimSpace`. -/
def goTrim (s : String) : String := String.mk (goTrimList s.data)

/-- Go `strings.HasPrefix pre s` (note the argument order: test whether
`s` starts with `pre`). -/
def strHasPre (pre s : String) : Bool := pre.data.isPrefixOf s.data

/-- Go `strings.TrimPrefix s pre`: drop `pre` from the front of `s` when
present, else return `s` unchanged. -/
def trimPre (pre s : String) : String :=
  if strHasPre pre s then String.mk (s.data.drop pre.data.length) else s

/-- Numeric value of a digit run. -/
def digitsVal (ds : List Char) : Nat :=
  ds.foldl (fun n c => n * 10 + (c.toNat - 48)) 0

/-- Go `fmt.Sscanf(s, "%d", &i)` with `i : int` (64-bit): skip leading
space, read an optional single sign, then a maximal run of decimal
digits; fail if there is no digit or the value is outside the `int64`
range.  Characters after the digit run are ignored (`Sscanf` does not
require the verb to consume the whole input), so a partially numeric
token such as `3x` scans successfully as `3`. -/
def sscanfInt (s : String) : Option Int :=
  let l := s.data.dropWhile goIsSpace
  let p : Int × List Char :=
    match l with
    | '+' :: rest => (1, rest)
    | '-' :: rest => (-1, rest)
    | _ => (1, l)
  let ds := p.2.takeWhile Char.isDigit
  if ds.isEmpty then none
  else
    let v : Int := p.1 * (digitsVal ds : Int)
    if v < -(2 ^ 63) || 2 ^ 63 ≤ v then none else some v

/-- Reduction of `Int` to Go's wrapping 64-bit `int` arithmetic. -/
def wrap64 (n : Int) : Int := (n + 2 ^ 63) % 2 ^ 64 - 2 ^ 63

/-- The `add`/`mul` arm of the reply switch in `handleConn`: with exactly
two argument tokens, scan both with `%d`; on success print the combined
value, otherwise the integers error; with any other arity the arguments
error.  `opName` is `"add"` or `"mul"` and `op` the Go operator. -/
def arithReply (opName : String) (op : Int → Int → Int) (rest : List String) : String :=
  match rest with
  | [a, b] =>
    match sscanfInt a, sscanfInt b with
    | some ai, some bi => toString (wrap64 (op ai bi))
    | _, _ => "ERR: " ++ opName ++ " expects two integers"
  | _ => "ERR: " ++ opName ++ " expects two arguments"

/-- The Reply Evaluator: the parsing switch over `tokens[0]` in
`handleConn`, applied to the trimmed payload line.  `none` models the Go
panic of `tokens[0]` on an empty token list (shown unreachable for
non-blank lines). -/
def evalReply (line : String) : Option String :=
  match goFields line with
  | [] => none
  | t :: rest =>
    some <|
      if t = "echo" then
        if rest.isEmpty then "" else String.intercalate " " rest
      else if t = "add" then arithReply "add" (· + ·) rest
      else if t = "mul" then arithReply "mul" (· * ·) rest
      else if strHasPre "bytes " line then
        toString (trimPre "bytes " line).utf8ByteSize
      else if strHasPre "words " line then
        toString (goFields (trimPre "words " line)).length
      else line ++ " from server"

/-- A credential entry (`User` record): gorm-assigned id, unique name,
stored bcrypt hash. -/
structure User where
  id : Nat
  name : String
  password : String
  deriving DecidableEq

/-- A chat record (`Message`): optional author id and name (Go zero value
`""` when unauthenticated), origin address, text, creation tick. -/
structure Message where
  userId : Option Nat
  userName : String
  addr : String
  text : String
  createdAt : Nat
  deriving DecidableEq

/-- The durable store backing the Credential Store and the Message Log:
the users table, the messages table in insertion order, and the next
primary key for `users`. -/
structure Store where
  users : List User
  msgs : List Message
  nextId : Nat
  deriving DecidableEq

/-- Per-line effect outcomes of the fallible externals: a set flag makes
the corresponding call fail on this line. -/
structure Fx where
  findErr : Bool := false
  hashErr : Bool := false
  createUserErr : Bool := false
  listErr : Bool := false
  createMsgErr : Bool := false
  writeFails : Bool := false
  deriving DecidableEq

/-- bcrypt modelled as an injective tag; comparison is tag equality. -/
def mkHash (pw : String) : String := "bcrypt:" ++ pw

/-- `db.Where("name = ?", name).First(&u)`: first user with this name. -/
def findByName (st : Store) (name : String) : Option User :=
  st.users.find? (fun u => u.name == name)

/-- The Command Dispatcher `handleCommand`: takes the trimmed line, the
session's current user, the store and the line's effect record; returns
the updated store, the updated session user, and either an error (written
back with the `ERR: ` prefix) or a success reply.  `none` models the Go
panic of `parts[0]` on an empty field list. -/
def handleCommand (line : String) (cu : Option User) (st : Store) (fx : Fx) :
    Option (Store × Option User × Except String String) :=
  match goFields line with
  | [] => none
  | p0 :: args =>
    if trimPre "/" p0 = "setname" then
      match args with
      | [name, pw] =>
        if !fx.findErr && (findByName st name).isSome then
          some (st, cu, Except.error "name already taken")
        else if fx.hashErr then
          some (st, cu, Except.error "bcrypt: hash generation failed")
        else if st.users.any (fun u => u.name == name) then
          some (st, cu, Except.error "UNIQUE constraint failed: users.name")
        else if fx.createUserErr then
          some (st, cu, Except.error "database is locked")
        else
          some ({ st with
                    users := st.users ++ [⟨st.nextId, name, mkHash pw⟩]
                    nextId := st.nextId + 1 },
                some ⟨st.nextId, name, mkHash pw⟩,
                Except.ok ("OK: registered and logged in as " ++ name))
      | _ => some (st, cu, Except.error "usage: /setname <name> <password>")
    else if trimPre "/" p0 = "connect" then
      match args with
      | [name, pw] =>
        match (if fx.findErr then none else findByName st name) with
        | none => some (st, cu, Except.error "no such user")
        | some u =>
          if u.password == mkHash pw then
            some (st, some u, Except.ok ("OK: logged in as " ++ name))
          else some (st, cu, Except.error "invalid password")
      | _ => some (st, cu, Except.error "usage: /connect <name> <password>")
    else if trimPre "/" p0 = "list" then
      if fx.listErr then some (st, cu, Except.error "database is locked")
      else if ((st.users.filter (fun u =>
          !(match cu with | some c => u.id == c.id | none => false))).map User.name).isEmpty then
        some (st, cu, Except.ok "(no other users)")
      else
        some (st, cu, Except.ok (String.intercalate ", " ((st.users.filter (fun u =>
          !(match cu with | some c => u.id == c.id | none => false))).map User.name)))
    else some (st, cu, Except.error ("unknown command: " ++ trimPre "/" p0))

/-- A write attempted on the connection: the string handed to
`conn.Write` and whether the write succeeded. -/
inductive Event where
  | wrote (s : String) (ok : Bool)
  deriving DecidableEq

/-- The chat record persisted for a payload line, exactly as built in
`handleConn`. -/
def payloadMsg (remote : String) (now : Nat) (cu : Option User) (line : String) : Message :=
  { userId := cu.map User.id
    userName := match cu with | some u => u.name | none => ""
    addr := remote
    text := line
    createdAt := now }

/-- One iteration of the read loop of `handleConn` on a successfully read
line: trim; skip blanks; route `/`-lines to the dispatcher (write errors
on this path are ignored); otherwise persist the chat record
(best-effort), evaluate the reply and write it, returning from the loop
if that write fails.  Result: updated store, updated session user, writes
attempted, and whether the loop continues.  `none` models a Go panic. -/
def processLine (remote : String) (now : Nat) (st : Store) (cu : Option User)
    (line0 : String) (fx : Fx) :
    Option (Store × Option User × List Event × Bool) :=
  if goTrim line0 = "" then some (st, cu, [], true)
  else if strHasPre "/" (goTrim line0) then
    match handleCommand (goTrim line0) cu st fx with
    | none => none
    | some (st', cu', Except.error e) =>
      some (st', cu', [Event.wrote ("ERR: " ++ e ++ "\n") (!fx.writeFails)], true)
    | some (st', cu', Except.ok resp) =>
      if resp = "" then some (st', cu', [], true)
      else some (st', cu', [Event.wrote (resp ++ "\n") (!fx.writeFails)], true)
  else
    match evalReply (goTrim line0) with
    | none => none
    | some reply =>
      some (if fx.createMsgErr then st
            else { st with msgs := st.msgs ++ [payloadMsg remote now cu (goTrim line0)] },
        cu, [Event.wrote (reply ++ "\n") (!fx.writeFails)], !fx.writeFails)

/-- The read loop of `handleConn`: the input list holds the successfully
read lines with their effect records (the list ending stands for read
failure or peer close, which tears the connection down).  The tick
counter advances once per line. -/
def runLoop (remote : String) :
    List (String × Fx) → Nat → Store → Option User →
    Option (Store × Option User × List Event)
  | [], _, st, cu => some (st, cu, [])
  | (line, fx) :: rest, now, st, cu =>
    (processLine remote now st cu line fx).bind (fun q =>
      if q.2.2.2 then
        (runLoop remote rest (now + 1) q.1 q.2.1).map (fun r => (r.1, r.2.1, q.2.2.1 ++ r.2.2))
      else some (q.1, q.2.1, q.2.2.1))

/-- A full connection after history replay: `handleConn` starts the loop
with `currentUser = nil`. -/
def handleConn (remote : String) (items : List (String × Fx)) (st : Store) :
    Option (Store × Option User × List Event) :=
  runLoop remote items 0 st none

/-- Rendering of the tick counter, standing in for `Format("15:04")`. -/
def fmtTime (t : Nat) : String := toString t

/-- One history line written by `sendHistory`: timestamp, then the author
name when present else the origin address, then the text. -/
def fmtHistoryLine (m : Message) : String :=
  let displayName := if m.userName = "" then m.addr else m.userName
  fmtTime m.createdAt ++ " " ++ displayName ++ " " ++ m.text ++ "\n"

/-- The `ORDER BY created_at ASC` query of `sendHistory`, modelled as a
sort of the messages table by creation tick. -/
def sortMsgs (msgs : List Message) : List Message :=
  List.insertionSort (fun a b => a.createdAt ≤ b.createdAt) msgs

/-- `sendHistory`: the lines written to the connection at connect time
(all of them, when no write fails; a write failure aborts the replay
early, which is logged and non-fatal in `handleConn`). -/
def sendHistory (msgs : List Message) : List String :=
  (sortMsgs msgs).map fmtHistoryLine

/-! Helper lemmas about tokenization and trimming. -/

theorem fieldsAux_append_nonspace (t : List Char) (ht : ∀ c ∈ t, goIsSpace c = false) :
    ∀ l acc, fieldsAux (t ++ l) acc = fieldsAux l (t.reverse ++ acc) := by
  induction t with
  | nil => intro l acc; simp
  | cons c cs ih =>
    intro l acc
    have hc : goIsSpace c = false := ht c (by simp)
    have hcs : ∀ x ∈ cs, goIsSpace x = false := fun x hx => ht x (by simp [hx])
    simp only [List.cons_append, fieldsAux, hc, Bool.false_eq_true, if_false,
      List.reverse_cons]
    rw [show cs.append l = cs ++ l from rfl, ih hcs]
    simp

theorem fieldsAux_token_space (t : List Char) (hne : t ≠ [])
    (ht : ∀ c ∈ t, goIsSpace c = false) (r : List Char) :
    fieldsAux (t ++ ' ' :: r) [] = t :: fieldsAux r [] := by
  rw [fieldsAux_append_nonspace t ht]
  have hsp : goIsSpace ' ' = true := by decide
  simp [fieldsAux, hsp, List.isEmpty_iff, hne]

theorem fieldsAux_nonspace_nil (t : List Char) (hne : t ≠ [])
    (ht : ∀ c ∈ t, goIsSpace c = false) :
    fieldsAux t [] = [t] := by
  have h := fieldsAux_append_nonspace t ht [] []
  simpa [fieldsAux, List.isEmpty_iff, hne] using h

theorem fieldsAux_acc_ne_nil : ∀ (l acc : List Char), acc ≠ [] → fieldsAux l acc ≠ [] := by
  intro l
  induction l with
  | nil => intro acc h; simp [fieldsAux, List.isEmpty_iff, h]
  | cons c cs ih =>
    intro acc h
    by_cases hc : goIsSpace c
    · simp [fieldsAux, hc, List.isEmpty_iff, h]
    · simp only [fieldsAux, hc]
      exact ih (c :: acc) (by simp)

theorem fieldsAux_head_nonspace (c : Char) (hc : goIsSpace c = false) (l : List Char) :
    fieldsAux (c :: l) [] ≠ [] := by
  simp only [fieldsAux, hc, Bool.false_eq_true, if_false, List.isEmpty_nil]
  exact fieldsAux_acc_ne_nil l [c] (by simp)

theorem dropWhile_head_false (p : Char → Bool) :
    ∀ (l : List Char) c cs, l.dropWhile p = c :: cs → p c = false := by
  intro l
  induction l with
  | nil => intro c cs h; simp [List.dropWhile] at h
  | cons a as ih =>
    intro c cs h
    by_cases ha : p a
    · rw [List.dropWhile_cons_of_pos ha] at h
      exact ih c cs h
    · rw [List.dropWhile_cons_of_neg ha] at h
      cases h
      exact Bool.eq_false_iff.mpr ha

theorem goTrimList_head_nonspace (l : List Char) (c : Char) (cs : List Char)
    (h : goTrimList l = c :: cs) : goIsSpace c = false := by
  unfold goTrimList at h
  obtain ⟨t, ht⟩ := List.dropWhile_suffix (l := (l.dropWhile goIsSpace).reverse) goIsSpace
  have hrev : ((l.dropWhile goIsSpace).reverse.dropWhile goIsSpace).reverse ++ t.reverse
      = l.dropWhile goIsSpace := by
    have h2 := congrArg List.reverse ht
    simpa using h2
  rw [h] at hrev
  exact dropWhile_head_false goIsSpace l c (cs ++ t.reverse) (by simpa using hrev.symm)

theorem goTrim_data (s : String) : (goTrim s).data = goTrimList s.data := rfl

theorem goTrim_eq_empty_iff (s : String) : goTrim s = "" ↔ goTrimList s.data = [] := by
  rw [String.ext_iff]
  exact Iff.rfl

theorem goFields_goTrim_ne_nil (s : String) (h : goTrim s ≠ "") :
    goFields (goTrim s) ≠ [] := by
  cases hl : goTrimList s.data with
  | nil => exact absurd ((goTrim_eq_empty_iff s).mpr hl) h
  | cons c cs =>
    have hc := goTrimList_head_nonspace s.data c cs hl
    unfold goFields
    rw [goTrim_data, hl]
    rw [ne_eq, List.map_eq_nil_iff]
    exact fieldsAux_head_nonspace c hc cs

/-! Helper lemmas about the dispatcher, the evaluator and the loop. -/

theorem evalReply_isSome (line : String) (h : goFields line ≠ []) :
    (evalReply line).isSome := by
  unfold evalReply
  cases hf : goFields line with
  | nil => exact absurd hf h
  | cons t rest => simp

theorem handleCommand_isSome (line : String) (cu : Option User) (st : Store) (fx : Fx)
    (h : goFields line ≠ []) : (handleCommand line cu st fx).isSome := by
  unfold handleCommand
  cases hf : goFields line with
  | nil => exact absurd hf h
  | cons p0 args =>
    simp only
    repeat' split
    all_goals simp

theorem triple_inv {α β γ : Type} {a a' : α} {b b' : β} {c c' : γ}
    (h : (some (a, b, c) : Option (α × β × γ)) = some (a', b', c')) :
    a = a' ∧ b = b' ∧ c = c' := by
  have h2 := Option.some.inj h
  exact ⟨congrArg Prod.fst h2, congrArg (fun x => x.2.1) h2, congrArg (fun x => x.2.2) h2⟩

theorem handleCommand_error_frame {line : String} {cu : Option User} {st : Store} {fx : Fx}
    {st' : Store} {cu' : Option User} {e : String}
    (h : handleCommand line cu st fx = some (st', cu', Except.error e)) :
    st' = st ∧ cu' = cu := by
  unfold handleCommand at h
  cases hf : goFields line <;> rw [hf] at h
  · exact absurd h (by simp)
  · repeat' split at h
    all_goals try exact Option.noConfusion h
    all_goals obtain ⟨h1, h2, h3⟩ := triple_inv h
    all_goals first
      | exact ⟨h1.symm, h2.symm⟩
      | exact Except.noConfusion h3

theorem handleCommand_msgs {line : String} {cu : Option User} {st : Store} {fx : Fx}
    {st' : Store} {cu' : Option User} {r : Except String String}
    (h : handleCommand line cu st fx = some (st', cu', r)) :
    st'.msgs = st.msgs := by
  unfold handleCommand at h
  cases hf : goFields line <;> rw [hf] at h
  · exact absurd h (by simp)
  · repeat' split at h
    all_goals try exact Option.noConfusion h
    all_goals obtain ⟨h1, h2, h3⟩ := triple_inv h
    all_goals rw [← h1]

theorem handleCommand_user_isSome {line : String} {cu : Option User} {st : Store} {fx : Fx}
    {st' : Store} {cu' : Option User} {r : Except String String}
    (hcu : cu.isSome) (h : handleCommand line cu st fx = some (st', cu', r)) :
    cu'.isSome := by
  unfold handleCommand at h
  cases hf : goFields line <;> rw [hf] at h
  · exact absurd h (by simp)
  · repeat' split at h
    all_goals try exact Option.noConfusion h
    all_goals obtain ⟨h1, h2, h3⟩ := triple_inv h
    all_goals rw [← h2]
    all_goals first
      | exact hcu
      | rfl

theorem strHasPre_slash_data {t : String} (h : strHasPre "/" t = true) :
    ∃ cs, t.data = '/' :: cs := by
  unfold strHasPre at h
  cases ht : t.data with
  | nil => rw [ht] at h; simp [List.isPrefixOf] at h
  | cons c cs =>
    rw [ht] at h
    simp only [show ("/" : String).data = ['/'] from rfl, List.isPrefixOf, List.isPrefixOf_nil_left,
      Bool.and_true] at h
    exact ⟨cs, by rw [show c = '/' from by simpa using (beq_iff_eq.mp (by simpa using h)).symm]⟩

theorem goFields_ne_nil_of_slash {t : String} (h : strHasPre "/" t = true) :
    goFields t ≠ [] := by
  obtain ⟨cs, hcs⟩ := strHasPre_slash_data h
  unfold goFields
  rw [hcs, ne_eq, List.map_eq_nil_iff]
  exact fieldsAux_head_nonspace '/' (by decide) cs

theorem processLine_isSome (remote : String) (now : Nat) (st : Store) (cu : Option User)
    (line : String) (fx : Fx) : (processLine remote now st cu line fx).isSome := by
  unfold processLine
  by_cases hb : goTrim line = ""
  · simp [hb]
  · by_cases hc : strHasPre "/" (goTrim line) = true
    · obtain ⟨r, hr⟩ := Option.isSome_iff_exists.mp
        (handleCommand_isSome (goTrim line) cu st fx (goFields_ne_nil_of_slash hc))
      obtain ⟨st', cu', res⟩ := r
      rw [if_neg hb, if_pos hc, hr]
      cases res with
      | error e => simp
      | ok resp => by_cases hresp : resp = "" <;> simp [hresp]
    · obtain ⟨rep, hrep⟩ := Option.isSome_iff_exists.mp
        (evalReply_isSome (goTrim line) (goFields_goTrim_ne_nil line hb))
      rw [if_neg hb, if_neg (by simpa using hc), hrep]
      simp

theorem quad_inv {α β γ δ : Type} {a a' : α} {b b' : β} {c c' : γ} {d d' : δ}
    (h : (some (a, b, c, d) : Option (α × β × γ × δ)) = some (a', b', c', d')) :
    a = a' ∧ b = b' ∧ c = c' ∧ d = d' := by
  have h2 := Option.some.inj h
  exact ⟨congrArg Prod.fst h2, congrArg (fun x => x.2.1) h2,
    congrArg (fun x => x.2.2.1) h2, congrArg (fun x => x.2.2.2) h2⟩

theorem goTrim_ne_empty_of_slash {t : String} (hc : strHasPre "/" (goTrim t) = true) :
    goTrim t ≠ "" := by
  obtain ⟨cs, hcs⟩ := strHasPre_slash_data hc
  intro hEq
  rw [hEq] at hcs
  exact List.noConfusion hcs

theorem processLine_user_isSome {remote : String} {now : Nat} {st : Store} {cu : Option User}
    {line : String} {fx : Fx} {st' : Store} {cu' : Option User} {evs : List Event} {cont : Bool}
    (hcu : cu.isSome)
    (h : processLine remote now st cu line fx = some (st', cu', evs, cont)) :
    cu'.isSome := by
  unfold processLine at h
  by_cases hb : goTrim line = ""
  · rw [if_pos hb] at h
    obtain ⟨_, h2, _, _⟩ := quad_inv h
    rw [← h2]; exact hcu
  · rw [if_neg hb] at h
    by_cases hc : strHasPre "/" (goTrim line) = true
    · rw [if_pos hc] at h
      cases hcmd : handleCommand (goTrim line) cu st fx with
      | none => rw [hcmd] at h; exact Option.noConfusion h
      | some q =>
        obtain ⟨st1, cu1, res⟩ := q
        rw [hcmd] at h
        have hu := handleCommand_user_isSome hcu hcmd
        cases res with
        | error e =>
          obtain ⟨_, h2, _, _⟩ := quad_inv h
          rw [← h2]; exact hu
        | ok resp =>
          by_cases hr : resp = ""
          · rw [show (match (some (st1, cu1, Except.ok resp) :
                Option (Store × Option User × Except String String)) with
                | none => none
                | some (st', cu', Except.error e) =>
                  some (st', cu', [Event.wrote ("ERR: " ++ e ++ "\n") (!fx.writeFails)], true)
                | some (st', cu', Except.ok resp) =>
                  if resp = "" then some (st', cu', [], true)
                  else some (st', cu', [Event.wrote (resp ++ "\n") (!fx.writeFails)], true))
                = if resp = "" then some (st1, cu1, ([] : List Event), true)
                  else some (st1, cu1, [Event.wrote (resp ++ "\n") (!fx.writeFails)], true)
                from rfl, if_pos hr] at h
            obtain ⟨_, h2, _, _⟩ := quad_inv h
            rw [← h2]; exact hu
          · rw [show (match (some (st1, cu1, Except.ok resp) :
                Option (Store × Option User × Except String String)) with
                | none => none
                | some (st', cu', Except.error e) =>
                  some (st', cu', [Event.wrote ("ERR: " ++ e ++ "\n") (!fx.writeFails)], true)
                | some (st', cu', Except.ok resp) =>
                  if resp = "" then some (st', cu', [], true)
                  else some (st', cu', [Event.wrote (resp ++ "\n") (!fx.writeFails)], true))
                = if resp = "" then some (st1, cu1, ([] : List Event), true)
                  else some (st1, cu1, [Event.wrote (resp ++ "\n") (!fx.writeFails)], true)
                from rfl, if_neg hr] at h
            obtain ⟨_, h2, _, _⟩ := quad_inv h
            rw [← h2]; exact hu
    · rw [if_neg hc] at h
      cases hev : evalReply (goTrim line) with
      | none => rw [hev] at h; exact Option.noConfusion h
      | some rep =>
        rw [hev] at h
        obtain ⟨_, h2, _, _⟩ := quad_inv h
        rw [← h2]; exact hcu

theorem processLine_payload (remote : String) (now : Nat) (st : Store) (cu : Option User)
    (line : String) (fx : Fx)
    (hb : goTrim line ≠ "") (hc : ¬ strHasPre "/" (goTrim line) = true) :
    ∃ reply, evalReply (goTrim line) = some reply ∧
      processLine remote now st cu line fx =
        some (if fx.createMsgErr then st
              else { st with msgs := st.msgs ++ [payloadMsg remote now cu (goTrim line)] },
          cu, [Event.wrote (reply ++ "\n") (!fx.writeFails)], !fx.writeFails) := by
  obtain ⟨rep, hrep⟩ := Option.isSome_iff_exists.mp
    (evalReply_isSome (goTrim line) (goFields_goTrim_ne_nil line hb))
  refine ⟨rep, hrep, ?_⟩
  unfold processLine
  rw [if_neg hb, if_neg hc, hrep]

theorem processLine_command_error (remote : String) (now : Nat) {st : Store} {cu : Option User}
    {line : String} {fx : Fx} {st' : Store} {cu' : Option User} {e : String}
    (hc : strHasPre "/" (goTrim line) = true)
    (h : handleCommand (goTrim line) cu st fx = some (st', cu', Except.error e)) :
    processLine remote now st cu line fx =
      some (st', cu', [Event.wrote ("ERR: " ++ e ++ "\n") (!fx.writeFails)], true) := by
  unfold processLine
  rw [if_neg (goTrim_ne_empty_of_slash hc), if_pos hc, h]

theorem runLoop_cons_stop {remote : String} {now : Nat} {st : Store} {cu : Option User}
    {line : String} {fx : Fx} {rest : List (String × Fx)}
    {st' : Store} {cu' : Option User} {evs : List Event}
    (h : processLine remote now st cu line fx = some (st', cu', evs, false)) :
    runLoop remote ((line, fx) :: rest) now st cu = some (st', cu', evs) := by
  unfold runLoop
  rw [h]
  rfl

theorem runLoop_user_isSome {remote : String} :
    ∀ {items : List (String × Fx)} {now : Nat} {st : Store} {cu : Option User}
      {st' : Store} {cu' : Option User} {evs : List Event},
      cu.isSome → runLoop remote items now st cu = some (st', cu', evs) → cu'.isSome := by
  intro items
  induction items with
  | nil =>
    intro now st cu st' cu' evs hcu h
    unfold runLoop at h
    obtain ⟨_, h2, _⟩ := triple_inv h
    rw [← h2]; exact hcu
  | cons it rest ih =>
    obtain ⟨l, fx⟩ := it
    intro now st cu st' cu' evs hcu h
    unfold runLoop at h
    cases hp : processLine remote now st cu l fx with
    | none => rw [hp] at h; exact Option.noConfusion h
    | some q =>
      obtain ⟨st1, cu1, evs1, cont⟩ := q
      rw [hp] at h
      have hcu1 : cu1.isSome := processLine_user_isSome hcu hp
      rw [show ((some (st1, cu1, evs1, cont) :
          Option (Store × Option User × List Event × Bool)).bind (fun q =>
            if q.2.2.2 then
              (runLoop remote rest (now + 1) q.1 q.2.1).map
                (fun r => (r.1, r.2.1, q.2.2.1 ++ r.2.2))
            else some (q.1, q.2.1, q.2.2.1)))
          = if cont then
              (runLoop remote rest (now + 1) st1 cu1).map
                (fun r => (r.1, r.2.1, evs1 ++ r.2.2))
            else some (st1, cu1, evs1) from rfl] at h
      cases cont with
      | false =>
        rw [if_neg (by simp)] at h
        obtain ⟨_, h2, _⟩ := triple_inv h
        rw [← h2]; exact hcu1
      | true =>
        rw [if_pos rfl] at h
        cases hr : runLoop remote rest (now + 1) st1 cu1 with
        | none => rw [hr] at h; exact Option.noConfusion h
        | some r =>
          obtain ⟨st2, cu2, evs2⟩ := r
          rw [hr] at h
          have hcu2 : cu2.isSome := ih hcu1 hr
          obtain ⟨_, h2, _⟩ := triple_inv h
          rw [← h2]; exact hcu2

/-! Helper lemmas about token-built lines, for the evaluator claims. -/

theorem strMk_data (s : String) : String.mk s.data = s := rfl

/-- A single whitespace-free, non-empty token, as produced by
`strings.Fields`. -/
def isTokenStr (s : String) : Prop :=
  s.data ≠ [] ∧ ∀ c ∈ s.data, goIsSpace c = false

instance (s : String) : Decidable (isTokenStr s) := by
  unfold isTokenStr
  infer_instance

theorem isPrefixOf_append_self (l r : List Char) : l.isPrefixOf (l ++ r) = true := by
  induction l with
  | nil => simp [List.isPrefixOf]
  | cons c cs ih => simp [List.isPrefixOf, ih]

theorem goFields_two_args (p : List Char) (hp : p ≠ []) (hps : ∀ c ∈ p, goIsSpace c = false)
    (a b : String) (ha : isTokenStr a) (hb : isTokenStr b) :
    goFields (String.mk (p ++ ' ' :: (a.data ++ ' ' :: b.data)))
      = [String.mk p, a, b] := by
  unfold goFields
  rw [show (String.mk (p ++ ' ' :: (a.data ++ ' ' :: b.data))).data
      = p ++ ' ' :: (a.data ++ ' ' :: b.data) from rfl]
  rw [fieldsAux_token_space p hp hps]
  rw [fieldsAux_token_space a.data ha.1 ha.2]
  rw [fieldsAux_nonspace_nil b.data hb.1 hb.2]
  simp [strMk_data]

theorem arithReply_comm (opName : String) (op : Int → Int → Int)
    (hop : ∀ x y, op x y = op y x) (a b : String) :
    arithReply opName op [a, b] = arithReply opName op [b, a] := by
  simp only [arithReply]
  cases sscanfInt a <;> cases sscanfInt b <;> simp [hop]

theorem evalReply_add (line : String) (a b : String)
    (hf : goFields line = ["add", a, b]) :
    evalReply line = some (arithReply "add" (· + ·) [a, b]) := by
  unfold evalReply
  rw [hf]
  simp

theorem evalReply_mul (line : String) (a b : String)
    (hf : goFields line = ["mul", a, b]) :
    evalReply line = some (arithReply "mul" (· * ·) [a, b]) := by
  unfold evalReply
  rw [hf]
  simp

theorem goFields_cmd_line (p : List Char) (hp : p ≠ []) (hps : ∀ c ∈ p, goIsSpace c = false)
    (a b : String) (ha : isTokenStr a) (hb : isTokenStr b)
    (line : String) (hdata : line.data = p ++ ' ' :: (a.data ++ ' ' :: b.data)) :
    goFields line = [String.mk p, a, b] := by
  have hline : line = String.mk (p ++ ' ' :: (a.data ++ ' ' :: b.data)) := by
    rw [String.ext_iff]
    exact hdata
  rw [hline]
  exact goFields_two_args p hp hps a b ha hb

theorem processLine_command_msgs {remote : String} {now : Nat} {st : Store} {cu : Option User}
    {line : String} {fx : Fx} {st' : Store} {cu' : Option User} {evs : List Event} {cont : Bool}
    (hc : strHasPre "/" (goTrim line) = true)
    (h : processLine remote now st cu line fx = some (st', cu', evs, cont)) :
    st'.msgs = st.msgs := by
  unfold processLine at h
  rw [if_neg (goTrim_ne_empty_of_slash hc), if_pos hc] at h
  cases hcmd : handleCommand (goTrim line) cu st fx with
  | none => rw [hcmd] at h; exact Option.noConfusion h
  | some q =>
    obtain ⟨st1, cu1, res⟩ := q
    rw [hcmd] at h
    have hm := handleCommand_msgs hcmd
    cases res with
    | error e =>
      obtain ⟨h1, _, _, _⟩ := quad_inv h
      rw [← h1]; exact hm
    | ok resp =>
      rw [show (match (some (st1, cu1, Except.ok resp) :
            Option (Store × Option User × Except String String)) with
            | none => none
            | some (st', cu', Except.error e) =>
              some (st', cu', [Event.wrote ("ERR: " ++ e ++ "\n") (!fx.writeFails)], true)
            | some (st', cu', Except.ok resp) =>
              if resp = "" then some (st', cu', [], true)
              else some (st', cu', [Event.wrote (resp ++ "\n") (!fx.writeFails)], true))
            = if resp = "" then some (st1, cu1, ([] : List Event), true)
              else some (st1, cu1, [Event.wrote (resp ++ "\n") (!fx.writeFails)], true)
            from rfl] at h
      by_cases hr : resp = ""
      · rw [if_pos hr] at h
        obtain ⟨h1, _, _, _⟩ := quad_inv h
        rw [← h1]; exact hm
      · rw [if_neg hr] at h
        obtain ⟨h1, _, _, _⟩ := quad_inv h
        rw [← h1]; exact hm

instance : IsTotal Message (fun a b => a.createdAt ≤ b.createdAt) :=
  ⟨fun a b => Nat.le_total a.createdAt b.createdAt⟩

instance : IsTrans Message (fun a b => a.createdAt ≤ b.createdAt) :=
  ⟨fun _ _ _ hab hbc => Nat.le_trans hab hbc⟩

instance : DecidableEq (Except String String) := fun a b =>
  match a, b with
  | Except.error x, Except.error y =>
    if h : x = y then Decidable.isTrue (by rw [h])
    else Decidable.isFalse (fun hh => h (Except.error.inj hh))
  | Except.ok x, Except.ok y =>
    if h : x = y then Decidable.isTrue (by rw [h])
    else Decidable.isFalse (fun hh => h (Except.ok.inj hh))
  | Except.error _, Except.ok _ => Decidable.isFalse (fun hh => Except.noConfusion hh)
  | Except.ok _, Except.error _ => Decidable.isFalse (fun hh => Except.noConfusion hh)

/-! Claim theorems. -/

/-- Claim C1: the claim demands that a partially-numeric token such as
`3x` be a parse failure yielding `ERR: add expects two integers`.  The
code disagrees: `fmt.Sscanf` with `%d` ignores trailing input, so
`add 3x 4` parses the token `3x` as `3` and replies `7` — a
truncated-parse numeric result.  A fully non-numeric token does produce
the integers error, as the claim says. -/
theorem claim1_truncated_parse_reply :
    evalReply "add 3x 4" = some "7" ∧
    evalReply "add y 4" = some "ERR: add expects two integers" := by
  constructor <;> rfl

/-- Claim C2: a command line whose handling fails is answered with a
single `ERR: `-prefixed line plus newline, the loop continues
(`cont = true`), and neither the session's authenticated user nor the
store changes. -/
theorem claim2_command_error_handling (remote : String) (now : Nat) (st : Store)
    (cu : Option User) (line : String) (fx : Fx) (st' : Store) (cu' : Option User) (e : String)
    (hc : strHasPre "/" (goTrim line) = true)
    (h : handleCommand (goTrim line) cu st fx = some (st', cu', Except.error e)) :
    processLine remote now st cu line fx =
      some (st, cu, [Event.wrote ("ERR: " ++ e ++ "\n") (!fx.writeFails)], true) := by
  obtain ⟨h1, h2⟩ := handleCommand_error_frame h
  have hp := processLine_command_error remote now hc h
  rw [hp, h1, h2]

theorem claim2_command_error_handling_witness :
    processLine "9.9.9.9:1" 0 ⟨[], [], 0⟩ none "/bogus" {} =
      some (⟨[], [], 0⟩, none, [Event.wrote "ERR: unknown command: bogus\n" true], true) :=
  claim2_command_error_handling "9.9.9.9:1" 0 ⟨[], [], 0⟩ none "/bogus" {} ⟨[], [], 0⟩ none
    "unknown command: bogus" (by decide) (by decide)

/-- Claim C3 counterexample: the claim says every failed write closes the
connection.  Concretely, the write of the error reply to the command line
`/bogus` fails (`ok = false` in the first event), yet the loop continues
and fully processes the next line `hello` — persisting its chat record
and attempting its reply write — because `handleConn` ignores the result
of `conn.Write` on the command path. -/
theorem claim3_counterexample :
    runLoop "1.2.3.4:5" [("/bogus", { writeFails := true }), ("hello", {})] 0 ⟨[], [], 0⟩ none
      = some (⟨[], [⟨none, "", "1.2.3.4:5", "hello", 1⟩], 0⟩, none,
          [Event.wrote "ERR: unknown command: bogus\n" false,
           Event.wrote "hello from server\n" true]) := by
  decide

/-- Claim C3 as amended: only a failed write of a payload-line reply
closes the connection; after it the loop terminates and the remaining
lines are never read or processed (the run equals the run with the
remaining lines removed).  Write failures on the command-reply path are
ignored. -/
theorem claim3_payload_write_failure_closes (remote : String) (now : Nat) (st : Store)
    (cu : Option User) (line : String) (fx : Fx) (rest : List (String × Fx))
    (hb : goTrim line ≠ "") (hc : strHasPre "/" (goTrim line) = false)
    (hw : fx.writeFails = true) :
    runLoop remote ((line, fx) :: rest) now st cu
      = runLoop remote [(line, fx)] now st cu := by
  have hc' : ¬ strHasPre "/" (goTrim line) = true := by
    rw [hc]; exact Bool.false_ne_true
  obtain ⟨rep, hrep, hpl⟩ := processLine_payload remote now st cu line fx hb hc'
  rw [hw] at hpl
  simp only [Bool.not_true] at hpl
  rw [runLoop_cons_stop hpl, runLoop_cons_stop hpl]

theorem claim3_payload_write_failure_closes_witness :
    runLoop "7.7.7.7:7" [("hello", { writeFails := true }), ("world", {})] 0 ⟨[], [], 0⟩ none
      = runLoop "7.7.7.7:7" [("hello", { writeFails := true })] 0 ⟨[], [], 0⟩ none :=
  claim3_payload_write_failure_closes "7.7.7.7:7" 0 ⟨[], [], 0⟩ none "hello"
    { writeFails := true } [("world", {})] (by decide) (by decide) (by decide)

/-- Claim C4: sessions start unauthenticated (`handleConn` enters the
loop with `none`), and once the session user is bound (`some u`), no
sequence of further lines — commands or payload, succeeding or failing —
ever takes it back to `none`: any completed run from an authenticated
state ends authenticated. -/
theorem claim4_auth_never_reverts (remote : String) (items : List (String × Fx)) (now : Nat)
    (st st' : Store) (u : User) (cu' : Option User) (evs : List Event)
    (h : runLoop remote items now st (some u) = some (st', cu', evs)) :
    handleConn remote items st = runLoop remote items 0 st none ∧ cu'.isSome :=
  ⟨rfl, runLoop_user_isSome (show (some u).isSome = true from rfl) h⟩

theorem claim4_auth_never_reverts_witness :
    handleConn "8.8.8.8:2" [("hi", {})] ⟨[], [], 0⟩
        = runLoop "8.8.8.8:2" [("hi", {})] 0 ⟨[], [], 0⟩ none ∧
      (some (⟨0, "alice", "bcrypt:pw"⟩ : User)).isSome :=
  claim4_auth_never_reverts "8.8.8.8:2" [("hi", {})] 0 ⟨[], [], 0⟩
    ⟨[], [⟨some 0, "alice", "8.8.8.8:2", "hi", 0⟩], 0⟩ ⟨0, "alice", "bcrypt:pw"⟩
    (some ⟨0, "alice", "bcrypt:pw"⟩) [Event.wrote "hi from server\n" true] (by decide)

/-- Claim C5: a non-blank payload line appends exactly one chat record
(author from the session, origin address from the connection, text the
trimmed line) whatever reply the evaluator produces, provided the
best-effort append itself does not fail; a command line never appends a
chat record, whether the command succeeds or fails. -/
theorem claim5_payload_persists_command_does_not :
    (∀ (remote : String) (now : Nat) (st : Store) (cu : Option User) (line : String) (fx : Fx)
       (st' : Store) (cu' : Option User) (evs : List Event) (cont : Bool),
       goTrim line ≠ "" → strHasPre "/" (goTrim line) = false → fx.createMsgErr = false →
       processLine remote now st cu line fx = some (st', cu', evs, cont) →
       st'.msgs = st.msgs ++ [payloadMsg remote now cu (goTrim line)]) ∧
    (∀ (remote : String) (now : Nat) (st : Store) (cu : Option User) (line : String) (fx : Fx)
       (st' : Store) (cu' : Option User) (evs : List Event) (cont : Bool),
       strHasPre "/" (goTrim line) = true →
       processLine remote now st cu line fx = some (st', cu', evs, cont) →
       st'.msgs = st.msgs) := by
  constructor
  · intro remote now st cu line fx st' cu' evs cont hb hc hm h
    have hc' : ¬ strHasPre "/" (goTrim line) = true := by
      rw [hc]; exact Bool.false_ne_true
    obtain ⟨rep, hrep, hpl⟩ := processLine_payload remote now st cu line fx hb hc'
    rw [hm] at hpl
    rw [h] at hpl
    obtain ⟨h1, _, _, _⟩ := quad_inv hpl.symm
    rw [← h1]
    simp
  · intro remote now st cu line fx st' cu' evs cont hc h
    exact processLine_command_msgs hc h

theorem claim5_payload_persists_command_does_not_witness :
    ((⟨[], [⟨none, "", "a:1", "hello", 3⟩], 0⟩ : Store).msgs
        = (⟨[], [], 0⟩ : Store).msgs ++ [payloadMsg "a:1" 3 none (goTrim "hello")]) ∧
    ((⟨[], [], 0⟩ : Store).msgs = (⟨[], [], 0⟩ : Store).msgs) :=
  ⟨claim5_payload_persists_command_does_not.1 "a:1" 3 ⟨[], [], 0⟩ none "hello" {}
      ⟨[], [⟨none, "", "a:1", "hello", 3⟩], 0⟩ none [Event.wrote "hello from server\n" true] true
      (by decide) (by decide) (by decide) (by rfl),
   claim5_payload_persists_command_does_not.2 "a:1" 4 ⟨[], [], 0⟩ none "/list" {}
      ⟨[], [], 0⟩ none [Event.wrote "(no other users)\n" true] true
      (by decide) (by rfl)⟩

/-- Claim C6: history replay renders exactly the records of the message
log — one line per record, `<timestamp> <display-name> <text>` with the
display name falling back from the author name to the origin address —
with the records arranged in non-decreasing creation-time order. -/
theorem claim6_history_replay (msgs : List Message) :
    sendHistory msgs = (sortMsgs msgs).map fmtHistoryLine ∧
    (sortMsgs msgs).Perm msgs ∧
    List.Sorted (fun a b => a.createdAt ≤ b.createdAt) (sortMsgs msgs) ∧
    ∀ m, fmtHistoryLine m =
      fmtTime m.createdAt ++ " " ++ (if m.userName = "" then m.addr else m.userName)
        ++ " " ++ m.text ++ "\n" :=
  ⟨rfl, List.perm_insertionSort _ msgs, List.sorted_insertionSort _ msgs, fun _ => rfl⟩

/-- Claim C7: when a credential entry with `name` already exists and the
uniqueness lookup succeeds, a second register command for `name` fails
with the name-taken error regardless of the supplied password, leaving
the store (and the session) unchanged. -/
theorem claim7_register_twice_name_taken (st : Store) (cu : Option User) (fx : Fx)
    (name pw : String) (hn : isTokenStr name) (hp : isTokenStr pw)
    (hfx : fx.findErr = false) (hex : (findByName st name).isSome) :
    handleCommand (String.mk ("/setname".data ++ ' ' :: (name.data ++ ' ' :: pw.data))) cu st fx
      = some (st, cu, Except.error "name already taken") := by
  unfold handleCommand
  rw [goFields_two_args "/setname".data (by decide) (by decide) name pw hn hp]
  simp [strMk_data, show trimPre "/" "/setname" = "setname" from rfl, hfx, hex]

theorem claim7_register_twice_name_taken_witness :
    handleCommand (String.mk ("/setname".data ++ ' ' :: ("alice".data ++ ' ' :: "pw2".data)))
        none ⟨[⟨0, "alice", "bcrypt:pw1"⟩], [], 1⟩ {}
      = some (⟨[⟨0, "alice", "bcrypt:pw1"⟩], [], 1⟩, none, Except.error "name already taken") :=
  claim7_register_twice_name_taken ⟨[⟨0, "alice", "bcrypt:pw1"⟩], [], 1⟩ none {} "alice" "pw2"
    (by decide) (by decide) (by decide) (by decide)

theorem goFields_op_line (w : String) (hw : w.data ≠ [])
    (hws : ∀ c ∈ w.data, goIsSpace c = false)
    (a b : String) (ha : isTokenStr a) (hb : isTokenStr b)
    (line : String) (hdata : line.data = w.data ++ ' ' :: (a.data ++ ' ' :: b.data)) :
    goFields line = [w, a, b] := by
  have h2 := goFields_cmd_line w.data hw hws a b ha hb line hdata
  rw [strMk_data] at h2
  exact h2

/-- Claim C8: `add` and `mul` replies are symmetric in their two
argument tokens — for every pair of tokens, swapping them leaves the
reply unchanged (equal numeric replies when both scan, the same error
reply otherwise). -/
theorem claim8_add_mul_commutative (a b : String) (ha : isTokenStr a) (hb : isTokenStr b) :
    evalReply ("add " ++ a ++ " " ++ b) = evalReply ("add " ++ b ++ " " ++ a) ∧
    evalReply ("mul " ++ a ++ " " ++ b) = evalReply ("mul " ++ b ++ " " ++ a) := by
  have hdadd : ∀ x y : String, ("add " ++ x ++ " " ++ y).data
      = "add".data ++ ' ' :: (x.data ++ ' ' :: y.data) := by
    intro x y
    simp only [String.data_append, List.append_assoc]
    rfl
  have hdmul : ∀ x y : String, ("mul " ++ x ++ " " ++ y).data
      = "mul".data ++ ' ' :: (x.data ++ ' ' :: y.data) := by
    intro x y
    simp only [String.data_append, List.append_assoc]
    rfl
  constructor
  · rw [evalReply_add _ a b (goFields_op_line "add" (by decide) (by decide) a b ha hb _
        (hdadd a b)),
      evalReply_add _ b a (goFields_op_line "add" (by decide) (by decide) b a hb ha _
        (hdadd b a))]
    exact congrArg some (arithReply_comm "add" _ (fun x y => Int.add_comm x y) a b)
  · rw [evalReply_mul _ a b (goFields_op_line "mul" (by decide) (by decide) a b ha hb _
        (hdmul a b)),
      evalReply_mul _ b a (goFields_op_line "mul" (by decide) (by decide) b a hb ha _
        (hdmul b a))]
    exact congrArg some (arithReply_comm "mul" _ (fun x y => Int.mul_comm x y) a b)

theorem claim8_add_mul_commutative_witness :
    evalReply ("add " ++ "3" ++ " " ++ "5") = evalReply ("add " ++ "5" ++ " " ++ "3") ∧
    evalReply ("mul " ++ "3" ++ " " ++ "5") = evalReply ("mul " ++ "5" ++ " " ++ "3") :=
  claim8_add_mul_commutative "3" "5" (by decide) (by decide)

/-- Claim C9: a payload line starting with the literal prefix `bytes `
(resp. `words `) on the untokenized line is answered with the UTF-8 byte
length (resp. the whitespace-token count) of everything after the
prefix. -/
theorem claim9_bytes_words_prefix_rules (rest : String) :
    evalReply ("bytes " ++ rest) = some (toString (String.utf8ByteSize rest)) ∧
    evalReply ("words " ++ rest) = some (toString (goFields rest).length) := by
  have hdb : ("bytes " ++ rest).data = "bytes".data ++ ' ' :: rest.data := by
    simp only [String.data_append]
    rfl
  have hdw : ("words " ++ rest).data = "words".data ++ ' ' :: rest.data := by
    simp only [String.data_append]
    rfl
  have hfb : goFields ("bytes " ++ rest)
      = "bytes" :: (fieldsAux rest.data []).map String.mk := by
    unfold goFields
    rw [hdb, fieldsAux_token_space "bytes".data (by decide) (by decide)]
    rfl
  have hfw : goFields ("words " ++ rest)
      = "words" :: (fieldsAux rest.data []).map String.mk := by
    unfold goFields
    rw [hdw, fieldsAux_token_space "words".data (by decide) (by decide)]
    rfl
  have hpreb : strHasPre "bytes " ("bytes " ++ rest) = true := by
    unfold strHasPre
    rw [String.data_append]
    exact isPrefixOf_append_self "bytes ".data rest.data
  have hprew : strHasPre "words " ("words " ++ rest) = true := by
    unfold strHasPre
    rw [String.data_append]
    exact isPrefixOf_append_self "words ".data rest.data
  have hnb : strHasPre "bytes " ("words " ++ rest) = false := by
    unfold strHasPre
    rw [String.data_append]
    rfl
  have htrimb : trimPre "bytes " ("bytes " ++ rest) = rest := by
    unfold trimPre
    rw [if_pos hpreb, String.data_append, List.drop_left]
  have htrimw : trimPre "words " ("words " ++ rest) = rest := by
    unfold trimPre
    rw [if_pos hprew, String.data_append, List.drop_left]
  constructor
  · unfold evalReply
    rw [hfb]
    simp [hpreb, htrimb]
  · unfold evalReply
    rw [hfw]
    simp [hnb, hprew, htrimw]

/-- Claim C10: a line that is non-empty after trimming always tokenizes
to at least one field, so the `tokens[0]` dispatch of the Reply
Evaluator, the `parts[0]` dispatch of the Command Dispatcher, and the
whole per-line step are total (never the modelled panic `none`) on
non-blank lines. -/
theorem claim10_dispatch_total (line remote : String) (now : Nat) (st : Store)
    (cu : Option User) (fx : Fx) (hb : goTrim line ≠ "") :
    goFields (goTrim line) ≠ [] ∧
    (evalReply (goTrim line)).isSome ∧
    (handleCommand (goTrim line) cu st fx).isSome ∧
    (processLine remote now st cu line fx).isSome :=
  ⟨goFields_goTrim_ne_nil line hb,
   evalReply_isSome _ (goFields_goTrim_ne_nil line hb),
   handleCommand_isSome _ cu st fx (goFields_goTrim_ne_nil line hb),
   processLine_isSome remote now st cu line fx⟩

theorem claim10_dispatch_total_witness :
    goFields (goTrim "  add 1 2 ") ≠ [] ∧
    (evalReply (goTrim "  add 1 2 ")).isSome ∧
    (handleCommand (goTrim "  add 1 2 ") none ⟨[], [], 0⟩ {}).isSome ∧
    (processLine "w:1" 5 ⟨[], [], 0⟩ none "  add 1 2 " {}).isSome :=
  claim10_dispatch_total "  add 1 2 " "w:1" 5 ⟨[], [], 0⟩ none {} (by decide)

end TCPchat
